import Mathlib

/-!
Shallow embedding of the `gator` RSS aggregator core (Go + SQL source):
the post table with its idempotent URL-keyed insert, the browse
(sort/filter/paginate) handler, the search query, the date normalizer,
the scrape pipeline, the aggregation concurrency bound and the service
supervisor.  Machine times are modelled as `Int` instants, UUIDs as `Nat`.
-/

/-- A row of the `posts` table (migration `create_posts_table.sql`):
`id, created_at, updated_at, title, url, description (nullable),
published_at (nullable), feed_id`. -/
structure Post where
  id : Nat
  createdAt : Int
  updatedAt : Int
  title : String
  url : String
  description : Option String
  publishedAt : Option Int
  feedId : Nat
deriving DecidableEq, Repr

/-- A row of the `feed_follows` table (only the columns the queries read). -/
structure FeedFollow where
  userId : Nat
  feedId : Nat
deriving DecidableEq, Repr

/-- A row of the `feeds` table (only the columns the scheduler reads). -/
structure Feed where
  id : Nat
  name : String
  url : String
  lastFetchedAt : Option Int
deriving DecidableEq, Repr

/-- The relational store as seen by the post queries. -/
structure DB where
  posts : List Post
  follows : List FeedFollow
deriving DecidableEq, Repr

/-- `CreatePost` (sql/queries/posts.sql): `INSERT INTO posts ...
ON CONFLICT (url) DO NOTHING`.  The `url` column carries a UNIQUE
constraint, so the conflict target is the whole-table URL key; a
conflicting insert leaves the table unchanged and reports no error
(the statement is `:exec`, success either way). -/
def createPost (table : List Post) (p : Post) : List Post :=
  if table.any (fun q => q.url == p.url) then table else table ++ [p]

/-- Stable insertion used by the in-memory sort: the new element is
placed after every existing element that compares strictly below it and
before the first element that does not (so equal keys keep their
original relative order, as Go's `sort.SliceStable` guarantees). -/
def orderedIns (lt : α → α → Bool) (a : α) : List α → List α
  | [] => [a]
  | b :: l => if lt b a then b :: orderedIns lt a l else a :: b :: l

/-- Observable behaviour of Go's `sort.SliceStable` with comparator `lt`
(a stable sort): used by `handlerBrowse`'s in-memory re-sort and as the
model of SQL `ORDER BY`. -/
def sortStable (lt : α → α → Bool) : List α → List α
  | [] => []
  | a :: l => orderedIns lt a (sortStable lt l)

/-- `strings.ToLower` / SQL lower-casing, modelled per character. -/
def lowerChars (s : String) : List Char := s.data.map Char.toLower

/-- Case-insensitive lexicographic comparison of titles
(`strings.ToLower(posts[i].Title) < strings.ToLower(posts[j].Title)`). -/
def titleLt (a b : Post) : Bool := decide (lowerChars a.title < lowerChars b.title)

/-- `COALESCE(published_at, created_at)`: the publish instant, falling
back to the creation instant when the publish time is absent. -/
def pubKey (p : Post) : Int :=
  match p.publishedAt with
  | some t => t
  | none => p.createdAt

/-- The `published_at`/`published` comparator of `handlerBrowse`
(`left.Before(right)` on the coalesced time). -/
def pubLt (a b : Post) : Bool := decide (pubKey a < pubKey b)

/-- Feed-filter step of `handlerBrowse`: when a filter argument is
present, keep only posts whose feed UUID renders to that string. -/
def browseSelect (page : List Post) (feedFilter : String) : List Post :=
  if feedFilter = "" then page
  else page.filter (fun p => toString p.feedId == feedFilter)

/-- Sort step of `handlerBrowse`: `switch sortBy` — `title` and
`published_at`/`published` sort stably ascending, anything else is the
`unsupported sort column` error. -/
def browseSort (page : List Post) : String → Except String (List Post)
  | "title" => .ok (sortStable titleLt page)
  | "published_at" => .ok (sortStable pubLt page)
  | "published" => .ok (sortStable pubLt page)
  | s => .error ("unsupported sort column: " ++ s)

/-- `handlerBrowse` after argument parsing, on a fixed page of posts
already fetched from the store: validate `order`, apply the feed
filter, sort ascending by the requested field, then reverse in place
when the requested order is `desc`. -/
def handlerBrowse (page : List Post) (sortBy order feedFilter : String) :
    Except String (List Post) :=
  if order != "asc" && order != "desc" then
    .error "invalid order: must be asc or desc"
  else
    (browseSort (browseSelect page feedFilter) sortBy).map
      (fun l => if order = "desc" then l.reverse else l)

/-- Helper for the `%` wildcard: does `f` accept some suffix of the text? -/
def anySuffix (f : List Char → Bool) : List Char → Bool
  | [] => f []
  | t :: ts => f (t :: ts) || anySuffix f ts

/-- A lexed `LIKE`-pattern element: the `%` wildcard, the `_` wildcard,
or a literal character. -/
inductive LikeTok where
  | pct
  | uscore
  | lit (c : Char)
deriving DecidableEq, Repr

/-- Lexing a `LIKE` pattern (PostgreSQL semantics): a backslash escapes
the following pattern character (a trailing lone backslash is taken
literally); unescaped `%` and `_` are wildcards; everything else is a
literal. -/
def lexPattern : List Char → List LikeTok
  | [] => []
  | c :: ps =>
    if c = '\\' then
      match ps with
      | [] => [.lit '\\']
      | d :: ps' => .lit d :: lexPattern ps'
    else if c = '%' then .pct :: lexPattern ps
    else if c = '_' then .uscore :: lexPattern ps
    else .lit c :: lexPattern ps

/-- Matching a lexed `LIKE` pattern against a text: `%` matches any
sequence (it tries every suffix of the text), `_` matches exactly one
character, a literal matches itself. -/
def likeMatchT : List LikeTok → List Char → Bool
  | [], ts => ts.isEmpty
  | .pct :: ps, ts => anySuffix (fun rest => likeMatchT ps rest) ts
  | .uscore :: ps, ts =>
    match ts with
    | [] => false
    | _ :: ts' => likeMatchT ps ts'
  | .lit c :: ps, ts =>
    match ts with
    | [] => false
    | t :: ts' => t == c && likeMatchT ps ts'

/-- SQL `LIKE` pattern matching (PostgreSQL semantics). -/
def likeMatch (pat text : List Char) : Bool := likeMatchT (lexPattern pat) text

/-- SQL `ILIKE`: case-insensitive `LIKE` (both sides folded to lower
case before matching). -/
def ilike (text pat : String) : Bool := likeMatch (lowerChars pat) (lowerChars text)

/-- Membership test `feed_follows` join: does user `uid` follow feed `fid`? -/
def followsFeed (db : DB) (uid fid : Nat) : Bool :=
  db.follows.any (fun ff => ff.userId == uid && ff.feedId == fid)

/-- `ORDER BY COALESCE(published_at, created_at) DESC` comparator. -/
def descLt (a b : Post) : Bool := decide (pubKey b < pubKey a)

/-- The `WHERE` clause of `SearchPosts`:
`p.title ILIKE $2 OR p.description ILIKE $2` (a NULL description makes
its disjunct not-true, per SQL three-valued logic). -/
def matchesPattern (pat : String) (p : Post) : Bool :=
  ilike p.title pat ||
    (match p.description with
     | some d => ilike d pat
     | none => false)

/-- `SearchPosts` (sql/queries/posts.sql): posts of feeds the user
follows whose title or description matches the pattern
case-insensitively, ordered by `COALESCE(published_at, created_at)`
descending, with no LIMIT/OFFSET. -/
def searchPosts (db : DB) (uid : Nat) (pat : String) : List Post :=
  sortStable descLt
    (db.posts.filter (fun p => followsFeed db uid p.feedId && matchesPattern pat p))

/-- `handlerSearch` wraps the raw query into the wildcard pattern
`fmt.Sprintf("%%%s%%", query)`, i.e. `%query%`. -/
def wrapPattern (q : String) : String := "%" ++ q ++ "%"

/-- `handlerSearch` after login middleware: requires one argument, wraps
it and runs `SearchPosts`. -/
def handlerSearch (db : DB) (uid : Nat) (args : List String) :
    Except String (List Post) :=
  match args with
  | [] => .error "usage: search <query>"
  | q :: _ => .ok (searchPosts db uid (wrapPattern q))

/-- Spec-side notion being compared against the code: case-insensitive
substring containment (`q` occurs contiguously in `t`, comparing
lower-cased characters): some suffix of the text starts with the query. -/
def containsCI (q t : String) : Bool :=
  anySuffix (fun rest => (lowerChars q).isPrefixOf rest) (lowerChars t)

/-- Spec-side match predicate for search: the query is a
case-insensitive substring of the title or of the (present) description. -/
def specSearchMatch (q : String) (p : Post) : Bool :=
  containsCI q p.title ||
    (match p.description with
     | some d => containsCI q d
     | none => false)

/-- The fixed, ordered layout list `publishedLayouts` of the source:
`time.RFC1123Z, time.RFC1123, time.RFC822Z, time.RFC822, time.RFC3339,
time.RubyDate`, and one literal layout (textually equal to RFC1123Z). -/
def publishedLayouts : List String :=
  ["Mon, 02 Jan 2006 15:04:05 -0700",
   "Mon, 02 Jan 2006 15:04:05 MST",
   "02 Jan 06 15:04 -0700",
   "02 Jan 06 15:04 MST",
   "2006-01-02T15:04:05Z07:00",
   "Mon Jan 02 15:04:05 -0700 2006",
   "Mon, 02 Jan 2006 15:04:05 -0700"]

/-- Go's `strings.TrimSpace`: drop whitespace from both ends
(character-level model). -/
def trimSpace (s : String) : List Char :=
  ((s.data.dropWhile Char.isWhitespace).reverse.dropWhile Char.isWhitespace).reverse

/-- The layout loop of `parsePublished`: try each layout in order against
the (already trimmed) string with the parsing oracle `tp` (Go's
`time.Parse`, external to this repository, abstracted as
`layout → input → Option instant`); the first success wins, otherwise
`(zero time, false)`. -/
def tryLayouts (tp : String → List Char → Option Int) :
    List String → List Char → Int × Bool
  | [], _ => (0, false)
  | l :: rest, s =>
    match tp l s with
    | some t => (t, true)
    | none => tryLayouts tp rest s

/-- `parsePublished`: trim surrounding whitespace; the empty trimmed
string is "not found"; otherwise run the ordered layout list.  The
`Bool` is the `ok` flag; no error is ever produced. -/
def parsePublished (tp : String → List Char → Option Int) (raw : String) :
    Int × Bool :=
  let trimmed := trimSpace raw
  if trimmed = [] then (0, false)
  else tryLayouts tp publishedLayouts trimmed

/-- One item of a fetched RSS document (title, link, description,
publish date — all raw strings, HTML entities already unescaped by the
fetcher). -/
structure RSSItemM where
  title : String
  link : String
  description : String
  pubDate : String
deriving DecidableEq, Repr

/-- Observable effects of one `scrapeFeeds` run, in program order. -/
inductive ScrapeEffect where
  | queryNextFeed
  | markFetched (feedId : Nat)
  | netFetch (url : String)
  | insertAttempt (idx : Nat)
  | logError
deriving DecidableEq, Repr

/-- Nulls-first least-recently-fetched comparison between feeds:
a never-fetched feed precedes every fetched one; two fetched feeds
compare by timestamp. -/
def fetchLt (g h : Feed) : Bool :=
  match g.lastFetchedAt, h.lastFetchedAt with
  | none, none => false
  | none, some _ => true
  | some _, none => false
  | some a, some b => decide (a < b)

/-- Modelled from the spec: the `GetNextFeedToFetch` store query (its
SQL file `sql/queries/feeds.sql` is not under src/) — "least-recently-
fetched feed (nulls first); fails with `NoFeedsError` if none exist".
Ties keep the earlier row. -/
def getNextFeedToFetch (feeds : List Feed) : Option Feed :=
  match feeds with
  | [] => none
  | f :: rest => some (rest.foldl (fun best g => if fetchLt g best then g else best) f)

/-- The ingestion loop of `scrapeFeeds` (`for _, item := range
rssFeed.Channel.Item`): every item gets a `CreatePost` attempt; a
storage failure (given by the oracle `insertOk` per item index) is
logged and the loop continues.  The loop is total: it always reaches
the end of the item list and returns normally. -/
def ingestTrace (insertOk : Nat → Bool) : Nat → List RSSItemM → List ScrapeEffect
  | _, [] => []
  | i, _ :: rest =>
    .insertAttempt i ::
      (if insertOk i then [] else [.logError]) ++ ingestTrace insertOk (i + 1) rest

/-- Environment of one `scrapeFeeds` run: the feed table plus oracles
for the three fallible external calls (mark-fetched write, network
fetch+decode, per-item insert). -/
structure ScrapeEnv where
  feeds : List Feed
  markOk : Bool
  fetchResult : Option (List RSSItemM)
  insertOk : Nat → Bool

/-- The effect trace of one `scrapeFeeds` run, in program order:
query the next feed (error → log and return); mark it fetched (error →
log and return, no fetch); network fetch (error → log and return);
ingest every item. -/
def scrapeTrace (env : ScrapeEnv) : List ScrapeEffect :=
  ScrapeEffect.queryNextFeed ::
    match getNextFeedToFetch env.feeds with
    | none => [.logError]
    | some feed =>
      .markFetched feed.id ::
        if env.markOk then
          .netFetch feed.url ::
            match env.fetchResult with
            | none => [.logError]
            | some items => ingestTrace env.insertOk 0 items
        else [.logError]

/-- `scrapeFeeds` as seen by its caller: the Go function has no return
value (`func scrapeFeeds(s *state)`), so the caller-visible result is
`Unit`; the effect trace is carried alongside. -/
def scrapeFeeds (env : ScrapeEnv) : Unit × List ScrapeEffect :=
  ((), scrapeTrace env)

/-- The statistic the spec talks about: how many of the document's items
were actually inserted (their `CreatePost` call succeeded). -/
def insertedOfRun (insertOk : Nat → Bool) : Nat → List RSSItemM → Nat
  | _, [] => 0
  | i, _ :: rest =>
    (if insertOk i then 1 else 0) + insertedOfRun insertOk (i + 1) rest

/-- Scanning predicate: `true` iff no `q`-effect occurs before the first
`p`-effect (every `q` is strictly preceded by a `p`). -/
def precededBy (p q : ScrapeEffect → Bool) : List ScrapeEffect → Bool
  | [] => true
  | x :: xs => if q x then false else if p x then true else precededBy p q xs

/-- First select of an `handlerAggService` loop iteration: either the
shutdown signal arrives while the child runs, or the child exits
(cleanly or not). -/
inductive SupEvent where
  | sigDuringRun
  | childExit (clean : Bool)
deriving DecidableEq, Repr

/-- Second select (restart-delay window): either the shutdown signal
arrives, or the 5 s delay elapses. -/
inductive WaitOutcome where
  | sigDuringWait
  | delayElapsed
deriving DecidableEq, Repr

/-- Observable actions of the supervisor, in program order. -/
inductive SupAction where
  | spawn
  | sigSeen
  | forwardSig
  | exitObserved
deriving DecidableEq, Repr

/-- The `handlerAggService` loop over a script of select outcomes (one
pair per iteration; an exhausted script means the run is still in
progress when observation stops).  Each iteration: spawn the child
`agg` process; on a signal during its run, forward the signal and
return; on child exit, wait out the restart delay unless a signal
arrives there, in which case return without restarting. -/
def supervisorTrace : List (SupEvent × WaitOutcome) → List SupAction
  | [] => []
  | (e, w) :: rest =>
    SupAction.spawn ::
      match e with
      | .sigDuringRun => [.sigSeen, .forwardSig]
      | .childExit _ =>
        SupAction.exitObserved ::
          match w with
          | .sigDuringWait => [.sigSeen]
          | .delayElapsed => supervisorTrace rest

/-- Scanning check: once a signal has been observed, no further spawn
occurs in the trace. -/
def noSpawnAfterSig : List SupAction → Bool
  | [] => true
  | a :: rest =>
    if a = SupAction.sigSeen then rest.all (fun b => b ≠ SupAction.spawn)
    else noSpawnAfterSig rest

/-- Scanning check that at most one child is alive at every point:
`running` says whether a child is currently alive; a spawn is legal only
when none is. -/
def oneChildOK : Bool → List SupAction → Bool
  | _, [] => true
  | running, a :: rest =>
    match a with
    | .spawn => !running && oneChildOK true rest
    | .exitObserved => oneChildOK false rest
    | _ => oneChildOK running rest

/-- State of `handlerAgg`'s concurrency discipline: `held` = occupied
slots of the capacity-5 channel `feedChan`; `pendingLaunch` = the main
loop has sent into the channel but not yet started the goroutine;
`inFlight` = running `scrapeFeeds` goroutines; `finished` = goroutines
whose `scrapeFeeds` returned but whose slot release (`<-feedChan`) has
not happened yet. -/
structure AggState where
  held : Nat
  pendingLaunch : Bool
  inFlight : Nat
  finished : Nat
deriving DecidableEq, Repr

/-- Interleaving semantics of `handlerAgg`: the main loop acquires a
slot (blocking while all 5 are taken) before each launch; a goroutine's
slot is released only after its `scrapeFeeds` call completes. -/
inductive AggStep : AggState → AggState → Prop where
  | acquire (s : AggState) (h1 : s.pendingLaunch = false) (h2 : s.held < 5) :
      AggStep s ⟨s.held + 1, true, s.inFlight, s.finished⟩
  | launch (s : AggState) (h : s.pendingLaunch = true) :
      AggStep s ⟨s.held, false, s.inFlight + 1, s.finished⟩
  | finish (s : AggState) (h : 0 < s.inFlight) :
      AggStep s ⟨s.held, s.pendingLaunch, s.inFlight - 1, s.finished + 1⟩
  | release (s : AggState) (h : 0 < s.finished) :
      AggStep s ⟨s.held - 1, s.pendingLaunch, s.inFlight, s.finished - 1⟩

/-- States reachable from `handlerAgg`'s start (empty channel, nothing
running). -/
inductive AggReachable : AggState → Prop where
  | init : AggReachable ⟨0, false, 0, 0⟩
  | step {s t : AggState} : AggReachable s → AggStep s t → AggReachable t

/-- Effect classifier: a `CreatePost` attempt. -/
def isInsertAttempt : ScrapeEffect → Bool
  | .insertAttempt _ => true
  | _ => false

/-- Effect classifier: a logged error. -/
def isLogError : ScrapeEffect → Bool
  | .logError => true
  | _ => false

/-- Effect classifier: the mark-fetched store write. -/
def isMarkEffect : ScrapeEffect → Bool
  | .markFetched _ => true
  | _ => false

/-- Effect classifier: the outbound network fetch. -/
def isNetEffect : ScrapeEffect → Bool
  | .netFetch _ => true
  | _ => false

/-- Concrete post for the search counterexample: its title `axb` does
not contain the query `a%b` as a substring, yet the wildcard-wrapped
pattern `%a%b%` matches it. -/
def cexPost : Post := ⟨1, 0, 0, "axb", "u", none, some 1, 4⟩

/-- Concrete store for the search counterexample: user 9 follows feed 4,
which owns `cexPost`. -/
def cexDB : DB := ⟨[cexPost], [⟨9, 4⟩]⟩

/-- A one-item fetched document for the ingestion-statistics
counterexample. -/
def cexDoc : List RSSItemM := [⟨"t", "l", "d", ""⟩]

/-- A feed for the ingestion-statistics counterexample. -/
def cexFeed : Feed := ⟨3, "f", "fu", none⟩

/-- Scrape run in which the single insert succeeds. -/
def cexEnvOk : ScrapeEnv := ⟨[cexFeed], true, some cexDoc, fun _ => true⟩

/-- Scrape run in which the single insert fails. -/
def cexEnvFail : ScrapeEnv := ⟨[cexFeed], true, some cexDoc, fun _ => false⟩

-- sanity examples (evaluation of the model on concrete inputs)
example : createPost [] ⟨1, 0, 0, "t", "u", none, none, 0⟩ =
    [⟨1, 0, 0, "t", "u", none, none, 0⟩] := by decide
example : sortStable (fun a b => a < b) [3, 1, 2] = [1, 2, 3] := by decide
example : lowerChars "Ab" = ['a', 'b'] := by decide
example : ilike "The Zebra Story" "%zebra%" = true := by decide
example : ilike "axb" "%a%b%" = true := by decide
example : containsCI "a%b" "axb" = false := by decide
example : containsCI "ZeB" "The Zebra" = true := by decide
example : likeMatch (lowerChars "%%") (lowerChars "anything") = true := by decide
example : ilike "abc" "a_c" = true := by decide
example : ilike "a%c" "a\\%c" = true := by decide
example : ilike "abc" "a\\%c" = false := by decide

/-! ### Helper lemmas on the stable sort -/

theorem mem_orderedIns (lt : α → α → Bool) (a x : α) (l : List α) :
    x ∈ orderedIns lt a l ↔ x = a ∨ x ∈ l := by
  induction l with
  | nil => simp [orderedIns]
  | cons b t ih =>
    simp only [orderedIns]
    split
    · simp only [List.mem_cons, ih]
      tauto
    · simp only [List.mem_cons]

theorem mem_sortStable (lt : α → α → Bool) (x : α) (l : List α) :
    x ∈ sortStable lt l ↔ x ∈ l := by
  induction l with
  | nil => simp [sortStable]
  | cons a t ih =>
    simp only [sortStable, mem_orderedIns, List.mem_cons, ih]

theorem length_orderedIns (lt : α → α → Bool) (a : α) (l : List α) :
    (orderedIns lt a l).length = l.length + 1 := by
  induction l with
  | nil => simp [orderedIns]
  | cons b t ih =>
    simp only [orderedIns]
    split
    · simp [ih]
    · simp

theorem length_sortStable (lt : α → α → Bool) (l : List α) :
    (sortStable lt l).length = l.length := by
  induction l with
  | nil => rfl
  | cons a t ih => simp [sortStable, length_orderedIns, ih]

/-- A stable sort leaves a list of pairwise-incomparable elements
(all keys equal) untouched. -/
theorem sortStable_of_incomparable (lt : α → α → Bool) (l : List α)
    (h : ∀ a ∈ l, ∀ b ∈ l, lt a b = false) : sortStable lt l = l := by
  induction l with
  | nil => rfl
  | cons a t ih =>
    have ht : sortStable lt t = t :=
      ih (fun x hx y hy => h x (List.mem_cons_of_mem _ hx) y (List.mem_cons_of_mem _ hy))
    simp only [sortStable, ht]
    cases t with
    | nil => rfl
    | cons b t' =>
      have hba : lt b a = false :=
        h b (List.mem_cons_of_mem _ (List.mem_cons_self _ _)) a (List.mem_cons_self _ _)
      simp [orderedIns, hba]

/-! ### C1 — idempotent URL-keyed post insertion -/

/-- C1: inserting a post whose URL already exists is observably a no-op,
not an error: starting from a table without URL `p.url`, inserting `p`
and then any `q` with the same URL leaves the table of the first insert
unchanged, exactly one record with that URL exists, and it is the first
writer's record `p`.  (Both calls return normally by construction:
`createPost` is total.) -/
theorem createPost_duplicate_url_noop (table : List Post) (p q : Post)
    (hurl : q.url = p.url)
    (habs : table.any (fun r => r.url == p.url) = false) :
    createPost (createPost table p) q = createPost table p ∧
    createPost table p = table ++ [p] ∧
    (createPost (createPost table p) q).filter (fun r => r.url == p.url) = [p] ∧
    (createPost (createPost table p) q).countP (fun r => r.url == p.url) = 1 := by
  have h1 : createPost table p = table ++ [p] := by
    simp only [createPost, habs]
    simp
  have hany : (table ++ [p]).any (fun r => r.url == q.url) = true := by
    simp [hurl]
  have h2 : createPost (createPost table p) q = table ++ [p] := by
    rw [h1]
    simp only [createPost, hany]
    simp
  have hfilter : (table ++ [p]).filter (fun r => r.url == p.url) = [p] := by
    rw [List.filter_append]
    rw [List.filter_eq_nil_iff.mpr (by simpa using List.any_eq_false.mp habs)]
    simp
  refine ⟨by rw [h2, h1], h1, by rw [h2, hfilter], ?_⟩
  rw [h2, List.countP_eq_length_filter, hfilter]
  rfl

/-- Witness for C1 at a concrete table and pair of posts. -/
theorem createPost_duplicate_url_noop_witness :
    createPost (createPost [] ⟨1, 0, 0, "first", "u", none, none, 7⟩)
        ⟨2, 9, 9, "second", "u", some "d", some 3, 8⟩ =
      createPost [] ⟨1, 0, 0, "first", "u", none, none, 7⟩ ∧
    (createPost (createPost [] ⟨1, 0, 0, "first", "u", none, none, 7⟩)
        ⟨2, 9, 9, "second", "u", some "d", some 3, 8⟩).countP (fun r => r.url == "u") = 1 := by
  have h := createPost_duplicate_url_noop []
    ⟨1, 0, 0, "first", "u", none, none, 7⟩
    ⟨2, 9, 9, "second", "u", some "d", some 3, 8⟩ (by decide) (by decide)
  exact ⟨h.1, h.2.2.2⟩

/-! ### C2 — descending browse order is the reverse of ascending -/

/-- C2: for a supported sort field and a fixed page from the store, the
`desc` result of `handlerBrowse` is the element-wise reverse of the
`asc` result, because descending order is implemented as the ascending
stable sort followed by a block reversal; in particular a page whose
elements are pairwise incomparable under the published-time key is
returned in exact reverse store order under `desc`. -/
theorem browse_desc_reverse_of_asc (page : List Post) (sortBy feedFilter : String)
    (h : sortBy = "title" ∨ sortBy = "published_at" ∨ sortBy = "published") :
    handlerBrowse page sortBy "desc" feedFilter =
      Except.map List.reverse (handlerBrowse page sortBy "asc" feedFilter) ∧
    (∀ lt : Post → Post → Bool, ∀ l : List Post,
      (∀ a ∈ l, ∀ b ∈ l, lt a b = false) → sortStable lt l = l) ∧
    ((∀ a ∈ browseSelect page feedFilter, ∀ b ∈ browseSelect page feedFilter,
        pubLt a b = false) →
      handlerBrowse page "published_at" "desc" feedFilter =
        .ok (browseSelect page feedFilter).reverse) := by
  refine ⟨?_, fun lt l hl => sortStable_of_incomparable lt l hl, ?_⟩
  · rcases h with h | h | h <;> subst h <;>
      simp [handlerBrowse, browseSort, Except.map]
  · intro hinc
    simp [handlerBrowse, browseSort,
      sortStable_of_incomparable pubLt (browseSelect page feedFilter) hinc,
      Except.map]

/-- Witness for C2 on a concrete two-post page sorted by title. -/
theorem browse_desc_reverse_of_asc_witness :
    handlerBrowse
        [⟨1, 0, 0, "Zebra", "a.com/1", none, some 10, 3⟩,
         ⟨2, 0, 0, "apple", "a.com/2", none, some 20, 3⟩]
        "title" "desc" "" =
      Except.map List.reverse
        (handlerBrowse
          [⟨1, 0, 0, "Zebra", "a.com/1", none, some 10, 3⟩,
           ⟨2, 0, 0, "apple", "a.com/2", none, some 20, 3⟩]
          "title" "asc" "") :=
  (browse_desc_reverse_of_asc
    [⟨1, 0, 0, "Zebra", "a.com/1", none, some 10, 3⟩,
     ⟨2, 0, 0, "apple", "a.com/2", none, some 20, 3⟩]
    "title" "" (Or.inl rfl)).1

/-! ### C3 — the date normalizer -/

theorem tryLayouts_append_of_none (tp : String → List Char → Option Int)
    (s : List Char) (ls1 ls2 : List String) (h : ∀ l ∈ ls1, tp l s = none) :
    tryLayouts tp (ls1 ++ ls2) s = tryLayouts tp ls2 s := by
  induction ls1 with
  | nil => rfl
  | cons l rest ih =>
    have hl : tp l s = none := h l (List.mem_cons_self _ _)
    simp only [List.cons_append, tryLayouts, hl]
    exact ih (fun x hx => h x (List.mem_cons_of_mem _ hx))

/-- C3: `parsePublished` trims surrounding whitespace (its result is a
function of the trimmed string alone, which also makes it
deterministic); the empty/all-whitespace string is "not found"; if no
layout in the fixed ordered list matches, the result is "not found"
(never an error — the return type has no error case); and the first
layout that succeeds decides the result. -/
theorem parsePublished_spec (tp : String → List Char → Option Int) (raw : String) :
    (∀ raw2 : String, trimSpace raw = trimSpace raw2 →
      parsePublished tp raw = parsePublished tp raw2) ∧
    (trimSpace raw = [] → parsePublished tp raw = (0, false)) ∧
    ((∀ l ∈ publishedLayouts, tp l (trimSpace raw) = none) →
      parsePublished tp raw = (0, false)) ∧
    (∀ ls1 l ls2 t, publishedLayouts = ls1 ++ l :: ls2 →
      (∀ l' ∈ ls1, tp l' (trimSpace raw) = none) →
      tp l (trimSpace raw) = some t →
      trimSpace raw ≠ [] →
      parsePublished tp raw = (t, true)) := by
  refine ⟨?_, ?_, ?_, ?_⟩
  · intro raw2 h
    simp only [parsePublished, h]
  · intro h
    simp [parsePublished, h]
  · intro h
    simp only [parsePublished]
    split
    · rfl
    · have : tryLayouts tp (publishedLayouts ++ []) (trimSpace raw) =
          tryLayouts tp [] (trimSpace raw) :=
        tryLayouts_append_of_none tp (trimSpace raw) publishedLayouts [] h
      simpa using this
  · intro ls1 l ls2 t hsplit hnone hsome hne
    simp only [parsePublished, if_neg hne]
    rw [hsplit, tryLayouts_append_of_none tp (trimSpace raw) ls1 (l :: ls2) hnone]
    simp [tryLayouts, hsome]

/-- Witness for C3: a concrete oracle that accepts the first layout on
the trimmed text `"x"`; the padded raw string parses to that instant,
and the all-whitespace string is not-found. -/
theorem parsePublished_spec_witness :
    parsePublished
        (fun l s => if l = "Mon, 02 Jan 2006 15:04:05 -0700" && s = ['x'] then some 5 else none)
        "  x " = (5, true) ∧
    parsePublished
        (fun l s => if l = "Mon, 02 Jan 2006 15:04:05 -0700" && s = ['x'] then some 5 else none)
        "   " = (0, false) := by
  constructor
  · exact (parsePublished_spec _ "  x ").2.2.2 []
      "Mon, 02 Jan 2006 15:04:05 -0700"
      ["Mon, 02 Jan 2006 15:04:05 MST",
       "02 Jan 06 15:04 -0700",
       "02 Jan 06 15:04 MST",
       "2006-01-02T15:04:05Z07:00",
       "Mon Jan 02 15:04:05 -0700 2006",
       "Mon, 02 Jan 2006 15:04:05 -0700"]
      5 (by decide) (by simp) (by decide) (by decide)
  · exact (parsePublished_spec _ "   ").2.1 (by decide)

/-! ### C4 — the service supervisor never restarts after a signal -/

/-- C4: for every sequence of select outcomes, the supervisor spawns no
new child after observing a shutdown signal, and at most one child is
alive at every point; a signal during the child's run makes the
supervisor forward it and return at once (no further action regardless
of later events), and a signal during the restart-delay window makes it
return without spawning. -/
theorem supervisor_no_restart_after_signal
    (script : List (SupEvent × WaitOutcome)) :
    noSpawnAfterSig (supervisorTrace script) = true ∧
    oneChildOK false (supervisorTrace script) = true ∧
    (∀ w rest, supervisorTrace ((SupEvent.sigDuringRun, w) :: rest) =
      [SupAction.spawn, SupAction.sigSeen, SupAction.forwardSig]) ∧
    (∀ clean rest,
      supervisorTrace ((SupEvent.childExit clean, WaitOutcome.sigDuringWait) :: rest) =
        [SupAction.spawn, SupAction.exitObserved, SupAction.sigSeen]) := by
  refine ⟨?_, ?_, fun w rest => rfl, fun clean rest => rfl⟩
  · induction script with
    | nil => rfl
    | cons ew rest ih =>
      obtain ⟨e, w⟩ := ew
      cases e with
      | sigDuringRun => rfl
      | childExit clean =>
        cases w with
        | sigDuringWait => rfl
        | delayElapsed => simpa [supervisorTrace, noSpawnAfterSig] using ih
  · induction script with
    | nil => rfl
    | cons ew rest ih =>
      obtain ⟨e, w⟩ := ew
      cases e with
      | sigDuringRun => rfl
      | childExit clean =>
        cases w with
        | sigDuringWait => rfl
        | delayElapsed => simpa [supervisorTrace, oneChildOK] using ih

/-! ### C9 — at most five fetch+ingest tasks in flight -/

/-- The slot-accounting invariant of `handlerAgg`: every pending launch,
running task and finished-but-unreleased task holds exactly one of the
at most five channel slots. -/
theorem aggReachable_invariant (s : AggState) (h : AggReachable s) :
    s.inFlight + s.finished + (if s.pendingLaunch then 1 else 0) = s.held ∧
    s.held ≤ 5 := by
  induction h with
  | init => simp
  | step hreach hstep ih =>
    rename_i s t
    cases hstep with
    | acquire h1 h2 =>
      simp [h1] at ih ⊢
      omega
    | launch h1 =>
      simp [h1] at ih ⊢
      omega
    | finish h1 =>
      cases hpl : s.pendingLaunch <;> simp [hpl] at ih ⊢ <;> omega
    | release h1 =>
      cases hpl : s.pendingLaunch <;> simp [hpl] at ih ⊢ <;> omega

/-- C9: in every reachable state of `handlerAgg`'s scheduling loop, at
most 5 `scrapeFeeds` tasks are in flight — the loop blocks acquiring
one of the 5 channel slots before each launch and the slot is released
only after the task completes (as the `AggStep` relation encodes). -/
theorem agg_inflight_at_most_five (s : AggState) (h : AggReachable s) :
    s.inFlight ≤ 5 := by
  have := aggReachable_invariant s h
  omega

/-- Witness for C9: a concrete reachable state (one task launched). -/
theorem agg_inflight_at_most_five_witness :
    (⟨1, false, 1, 0⟩ : AggState).inFlight ≤ 5 :=
  agg_inflight_at_most_five ⟨1, false, 1, 0⟩
    (AggReachable.step
      (AggReachable.step AggReachable.init
        (AggStep.acquire ⟨0, false, 0, 0⟩ rfl (by decide)))
      (AggStep.launch ⟨1, true, 0, 0⟩ rfl))

/-! ### C5 — mark-fetched precedes the network fetch -/

theorem fetchLt_irrefl (g : Feed) : fetchLt g g = false := by
  unfold fetchLt
  cases g.lastFetchedAt <;> simp

theorem fetchLt_asymm (g h : Feed) (hgh : fetchLt g h = true) :
    fetchLt h g = false := by
  unfold fetchLt at *
  cases hg : g.lastFetchedAt <;> cases hh : h.lastFetchedAt
  all_goals simp [hg, hh] at *
  all_goals omega

theorem fetchLt_neg_trans (x y z : Feed) (h1 : fetchLt x y = false)
    (h2 : fetchLt y z = false) : fetchLt x z = false := by
  unfold fetchLt at *
  cases hx : x.lastFetchedAt <;> cases hy : y.lastFetchedAt <;>
    cases hz : z.lastFetchedAt
  all_goals simp_all
  all_goals omega

/-- The fold in `getNextFeedToFetch` selects an element no other feed
strictly precedes in the nulls-first least-recently-fetched order. -/
theorem foldl_fetchMin_not_lt (f : Feed) (rest : List Feed) :
    ∀ g ∈ f :: rest,
      fetchLt g (rest.foldl (fun best x => if fetchLt x best then x else best) f)
        = false := by
  induction rest generalizing f with
  | nil =>
    intro g hg
    simp only [List.mem_singleton] at hg
    subst hg
    exact fetchLt_irrefl g
  | cons r rest' ih =>
    intro g hg
    simp only [List.foldl_cons]
    rcases List.mem_cons.mp hg with hgf | hg'
    · subst hgf
      by_cases hrf : fetchLt r g = true
      · simp only [hrf, if_true]
        have hgr : fetchLt g r = false := fetchLt_asymm r g hrf
        have hrres := ih r r (List.mem_cons_self _ _)
        exact fetchLt_neg_trans g r _ hgr hrres
      · simp only [Bool.not_eq_true] at hrf
        simp only [hrf, if_false]
        exact ih g g (List.mem_cons_self _ _)
    · rcases List.mem_cons.mp hg' with hgr | hg''
      · subst hgr
        by_cases hrf : fetchLt g f = true
        · simp only [hrf, if_true]
          exact ih g g (List.mem_cons_self _ _)
        · simp only [Bool.not_eq_true] at hrf
          simp only [hrf, if_false]
          have hfres := ih f f (List.mem_cons_self _ _)
          exact fetchLt_neg_trans g f _ hrf hfres
      · by_cases hrf : fetchLt r f = true <;>
          simp only [hrf, if_true, Bool.not_eq_true, if_false] <;>
          [exact ih r g (List.mem_cons_of_mem _ hg'');
           exact ih f g (List.mem_cons_of_mem _ hg'')]

/-- C5: in every `scrapeFeeds` run, the mark-fetched store write occurs
strictly before the network fetch (no net-fetch effect precedes the
mark effect in the trace); when the mark-fetched write fails, no
network fetch happens at all; and the feed handed out by the store
model is one that no other feed strictly precedes in the nulls-first
least-recently-fetched order. -/
theorem scrape_marks_before_fetch (env : ScrapeEnv) :
    precededBy isMarkEffect isNetEffect (scrapeTrace env) = true ∧
    (env.markOk = false → ∀ u, ScrapeEffect.netFetch u ∉ scrapeTrace env) ∧
    (∀ f, getNextFeedToFetch env.feeds = some f →
      ∀ g ∈ env.feeds, fetchLt g f = false) := by
  refine ⟨?_, ?_, ?_⟩
  · cases hnext : getNextFeedToFetch env.feeds with
    | none => simp [scrapeTrace, hnext, precededBy, isMarkEffect, isNetEffect]
    | some feed => simp [scrapeTrace, hnext, precededBy, isMarkEffect, isNetEffect]
  · intro hmark u
    cases hnext : getNextFeedToFetch env.feeds with
    | none => simp [scrapeTrace, hnext]
    | some feed => simp [scrapeTrace, hnext, hmark]
  · intro f hf g hg
    cases hfeeds : env.feeds with
    | nil => rw [hfeeds] at hf; exact absurd hf (by simp [getNextFeedToFetch])
    | cons f0 rest =>
      rw [hfeeds] at hf hg
      simp only [getNextFeedToFetch, Option.some_inj] at hf
      subst hf
      exact foldl_fetchMin_not_lt f0 rest g hg

/-- Witness for C5 at a concrete two-feed environment whose mark write
fails. -/
theorem scrape_marks_before_fetch_witness :
    ScrapeEffect.netFetch "fu" ∉
      scrapeTrace ⟨[⟨3, "f", "fu", none⟩, ⟨4, "g", "gu", some 2⟩],
        false, some [], fun _ => true⟩ ∧
    (∀ g ∈ [(⟨3, "f", "fu", none⟩ : Feed), ⟨4, "g", "gu", some 2⟩],
      fetchLt g ⟨3, "f", "fu", none⟩ = false) := by
  have h := scrape_marks_before_fetch
    ⟨[⟨3, "f", "fu", none⟩, ⟨4, "g", "gu", some 2⟩], false, some [], fun _ => true⟩
  exact ⟨h.2.1 rfl "fu", h.2.2 ⟨3, "f", "fu", none⟩ (by decide)⟩

/-! ### C6 — per-item failures never abort ingestion -/

/-- C6: the ingestion loop attempts every item of the document no matter
which subset of inserts fails: the number of insert attempts equals the
number of items, and the attempt for each item (also each one after a
failing item) occurs in the trace.  The loop is a total function — it
completes and returns normally for every document and failure set. -/
theorem ingest_attempts_every_item (items : List RSSItemM)
    (insertOk : Nat → Bool) (i : Nat) :
    (ingestTrace insertOk i items).countP isInsertAttempt = items.length ∧
    (∀ j, j < items.length →
      ScrapeEffect.insertAttempt (i + j) ∈ ingestTrace insertOk i items) := by
  induction items generalizing i with
  | nil => simp [ingestTrace]
  | cons item rest ih =>
    constructor
    · have hrest := (ih (i + 1)).1
      by_cases hok : insertOk i <;>
        simp [ingestTrace, hok, List.countP_cons, List.countP_append,
          isInsertAttempt, hrest]
    · intro j hj
      cases j with
      | zero =>
        simp [ingestTrace]
      | succ j' =>
        have hmem := (ih (i + 1)).2 j' (by simpa [Nat.succ_lt_succ_iff] using hj)
        have harith : i + (j' + 1) = i + 1 + j' := by omega
        rw [harith]
        by_cases hok : insertOk i <;> simp [ingestTrace, hok, hmem]

/-- Witness for C6: with every insert failing, the second item of a
two-item document is still attempted. -/
theorem ingest_attempts_every_item_witness :
    ScrapeEffect.insertAttempt 1 ∈
      ingestTrace (fun _ => false) 0 [⟨"a", "la", "", ""⟩, ⟨"b", "lb", "", ""⟩] :=
  (ingest_attempts_every_item [⟨"a", "la", "", ""⟩, ⟨"b", "lb", "", ""⟩]
    (fun _ => false) 0).2 1 (by decide)

/-! ### C8 — ingestion returns no statistics (corrected) -/

/-- Refutation of C8 as stated: two runs that insert different numbers
of items (one insert succeeds in the first, fails in the second) are
indistinguishable by `scrapeFeeds`'s return value, which is the unit of
the no-result Go signature — the caller cannot observe the
inserted/skipped counts from the return. -/
theorem scrape_stats_unobservable_cex :
    (scrapeFeeds cexEnvOk).1 = (scrapeFeeds cexEnvFail).1 ∧
    insertedOfRun cexEnvOk.insertOk 0 cexDoc ≠
      insertedOfRun cexEnvFail.insertOk 0 cexDoc := by
  exact ⟨rfl, by decide⟩

/-- C8 (amended): `scrapeFeeds` returns nothing to its caller — the
inserted/skipped split is observable only in the effect log, where
every failed insert logs exactly one error: per run, the number of
logged ingestion errors plus the number of inserted items equals the
number of items in the document. -/
theorem scrape_returns_no_stats (env : ScrapeEnv) (insertOk : Nat → Bool)
    (i : Nat) (items : List RSSItemM) :
    (scrapeFeeds env).1 = () ∧
    (ingestTrace insertOk i items).countP isLogError +
      insertedOfRun insertOk i items = items.length := by
  refine ⟨rfl, ?_⟩
  induction items generalizing i with
  | nil => simp [ingestTrace, insertedOfRun]
  | cons item rest ih =>
    have hrest := ih (i + 1)
    by_cases hok : insertOk i <;>
      simp [ingestTrace, insertedOfRun, hok, List.countP_cons,
        List.countP_append, isLogError, hrest] <;>
      omega

/-! ### LIKE-pattern lemmas (for C7 and C10) -/

theorem anySuffix_iff (f : List Char → Bool) (ts : List Char) :
    anySuffix f ts = true ↔ ∃ rest, rest <:+ ts ∧ f rest = true := by
  induction ts with
  | nil => simp [anySuffix]
  | cons t ts' ih =>
    simp only [anySuffix, Bool.or_eq_true, ih]
    constructor
    · rintro (h | ⟨rest, hsuf, hf⟩)
      · exact ⟨t :: ts', List.suffix_refl _, h⟩
      · exact ⟨rest, hsuf.trans (List.suffix_cons _ _), hf⟩
    · rintro ⟨rest, hsuf, hf⟩
      rcases List.suffix_cons_iff.mp hsuf with h | h
      · subst h
        exact Or.inl hf
      · exact Or.inr ⟨rest, h, hf⟩

theorem likeMatchT_pct_single (ts : List Char) : likeMatchT [.pct] ts = true := by
  have h : likeMatchT [.pct] ts = anySuffix (fun rest => likeMatchT [] rest) ts := rfl
  rw [h]
  exact (anySuffix_iff _ _).mpr ⟨[], List.nil_suffix, rfl⟩

/-- Lexing a metacharacter-free pattern yields its characters as
literals. -/
theorem lexPattern_of_clean (cs : List Char)
    (h : ∀ c ∈ cs, c ≠ '%' ∧ c ≠ '_' ∧ c ≠ '\\') (tail : List Char) :
    lexPattern (cs ++ tail) = cs.map LikeTok.lit ++ lexPattern tail := by
  induction cs with
  | nil => simp
  | cons c cs' ih =>
    obtain ⟨h1, h2, h3⟩ := h c (List.mem_cons_self _ _)
    have hcs' := fun x hx => h x (List.mem_cons_of_mem _ hx)
    calc lexPattern ((c :: cs') ++ tail)
        = LikeTok.lit c :: lexPattern (cs' ++ tail) := by
          cases hcst : cs' ++ tail <;>
            simp [lexPattern, h1, h2, h3, hcst]
      _ = (c :: cs').map LikeTok.lit ++ lexPattern tail := by
          rw [ih hcs']
          rfl

/-- A run of literal tokens followed by a single `%` matches exactly the
texts having those characters as a prefix. -/
theorem likeMatchT_literal_pct (cs : List Char) :
    ∀ ts, likeMatchT (cs.map LikeTok.lit ++ [.pct]) ts = cs.isPrefixOf ts := by
  induction cs with
  | nil =>
    intro ts
    simp only [List.map_nil, List.nil_append, likeMatchT_pct_single]
    cases ts <;> rfl
  | cons c cs' ih =>
    intro ts
    cases ts with
    | nil => rfl
    | cons t ts' =>
      show (t == c && likeMatchT (cs'.map LikeTok.lit ++ [.pct]) ts') =
        (c :: cs').isPrefixOf (t :: ts')
      rw [ih ts']
      rw [List.isPrefixOf]
      rw [Bool.beq_comm]

/-- The wildcard-wrapped pattern `%cs%` (with `cs` metacharacter-free)
matches exactly the texts containing `cs` contiguously: some suffix has
it as a prefix. -/
theorem likeMatch_wrapped_literal (cs : List Char)
    (h : ∀ c ∈ cs, c ≠ '%' ∧ c ≠ '_' ∧ c ≠ '\\') (ts : List Char) :
    likeMatch ('%' :: (cs ++ ['%'])) ts =
      anySuffix (fun rest => cs.isPrefixOf rest) ts := by
  have hlex : lexPattern ('%' :: (cs ++ ['%'])) =
      LikeTok.pct :: (cs.map LikeTok.lit ++ [.pct]) := by
    have h0 : lexPattern ('%' :: (cs ++ ['%'])) = .pct :: lexPattern (cs ++ ['%']) := by
      cases hcst : cs ++ ['%'] with
      | nil => exact absurd hcst (by simp)
      | cons x xs => simp [lexPattern, hcst]
    rw [h0, lexPattern_of_clean cs h ['%']]
    rfl
  unfold likeMatch
  rw [hlex]
  have hstep : likeMatchT (LikeTok.pct :: (cs.map LikeTok.lit ++ [.pct])) ts =
      anySuffix (fun rest => likeMatchT (cs.map LikeTok.lit ++ [.pct]) rest) ts := rfl
  rw [hstep]
  congr 1
  funext rest
  exact likeMatchT_literal_pct cs rest

/-- Lower-casing a character cannot create a LIKE metacharacter: the
lowered range of the upper-case letters is `a`–`z`, and every other
character is left unchanged. -/
theorem toLower_nonmeta (c : Char) (h1 : c ≠ '%') (h2 : c ≠ '_') (h3 : c ≠ '\\') :
    Char.toLower c ≠ '%' ∧ Char.toLower c ≠ '_' ∧ Char.toLower c ≠ '\\' := by
  unfold Char.toLower
  by_cases hc : c.toNat ≥ 65 ∧ c.toNat ≤ 90
  · rw [if_pos hc]
    obtain ⟨ha, hb⟩ := hc
    generalize hg : c.toNat = n at ha hb
    refine ⟨?_, ?_, ?_⟩ <;> (interval_cases n <;> decide)
  · rw [if_neg hc]
    exact ⟨h1, h2, h3⟩

theorem lowerChars_wrap (q : String) :
    lowerChars (wrapPattern q) = '%' :: (lowerChars q ++ ['%']) := by
  have hdata : (wrapPattern q).data = '%' :: (q.data ++ ['%']) := by
    simp only [wrapPattern, String.data_append]
    rfl
  simp [lowerChars, hdata]

/-- `ILIKE` with the wildcard-wrapped pattern of a metacharacter-free
query is exactly case-insensitive substring containment. -/
theorem ilike_wrapped_eq_containsCI (q t : String)
    (hq : ∀ c ∈ q.data, c ≠ '%' ∧ c ≠ '_' ∧ c ≠ '\\') :
    ilike t (wrapPattern q) = containsCI q t := by
  unfold ilike containsCI
  rw [lowerChars_wrap]
  refine likeMatch_wrapped_literal (lowerChars q) ?_ (lowerChars t)
  intro c hc
  simp only [lowerChars, List.mem_map] at hc
  obtain ⟨c0, hc0, rfl⟩ := hc
  obtain ⟨g1, g2, g3⟩ := hq c0 hc0
  exact toLower_nonmeta c0 g1 g2 g3

/-! ### Sortedness of the descending search order -/

theorem pairwise_orderedIns_descLt (a : Post) (l : List Post)
    (h : l.Pairwise (fun x y => pubKey y ≤ pubKey x)) :
    (orderedIns descLt a l).Pairwise (fun x y => pubKey y ≤ pubKey x) := by
  induction l with
  | nil => simp [orderedIns]
  | cons b t ih =>
    obtain ⟨hb, ht⟩ := List.pairwise_cons.mp h
    by_cases hba : descLt b a = true
    · simp only [orderedIns, hba, if_true]
      refine List.pairwise_cons.mpr ⟨?_, ih ht⟩
      intro x hx
      rcases (mem_orderedIns descLt a x t).mp hx with hxa | hxt
      · rw [hxa]
        have hlt : pubKey a < pubKey b := by simpa [descLt] using hba
        omega
      · exact hb x hxt
    · have hba' : pubKey b ≤ pubKey a := by
        have : ¬(pubKey a < pubKey b) := by simpa [descLt] using hba
        omega
      simp only [orderedIns, hba, if_false]
      refine List.pairwise_cons.mpr ⟨?_, h⟩
      intro x hx
      rcases List.mem_cons.mp hx with hxb | hxt
      · subst hxb
        exact hba'
      · have := hb x hxt
        omega

theorem sortStable_descLt_pairwise (l : List Post) :
    (sortStable descLt l).Pairwise (fun x y => pubKey y ≤ pubKey x) := by
  induction l with
  | nil => simp [sortStable]
  | cons a t ih => exact pairwise_orderedIns_descLt a _ ih

/-! ### C7 — search is pattern matching, substring for clean queries (corrected) -/

/-- Refutation of C7 as stated: with user 9 following feed 4 that owns
the post titled `axb`, searching for the query `a%b` returns that post
even though `a%b` is not (case-insensitively) a substring of `axb` —
the `%` in the query acts as a `LIKE` wildcard inside the wrapped
pattern `%a%b%`, so search is not substring containment for every
query string. -/
theorem search_wildcard_query_cex :
    searchPosts cexDB 9 (wrapPattern "a%b") = [cexPost] ∧
    specSearchMatch "a%b" cexPost = false := by
  constructor
  · decide
  · decide

/-- C7 (amended): for every user and every query free of `LIKE`
metacharacters (`%`, `_`, `\`), search returns exactly those posts of
feeds the user follows whose title or description case-insensitively
contains the query as a substring, ordered by published time falling
back to creation time, descending, with no pagination applied (every
matching post is in the result).  For queries containing
metacharacters, the match is the wildcard interpretation of the wrapped
pattern `%query%` instead. -/
theorem searchPosts_substring_spec (db : DB) (uid : Nat) (q : String)
    (hq : ∀ c ∈ q.data, c ≠ '%' ∧ c ≠ '_' ∧ c ≠ '\\') :
    (∀ p, p ∈ searchPosts db uid (wrapPattern q) ↔
      p ∈ db.posts ∧ followsFeed db uid p.feedId = true ∧
        specSearchMatch q p = true) ∧
    (searchPosts db uid (wrapPattern q)).Pairwise
      (fun a b => pubKey b ≤ pubKey a) := by
  have hmp : ∀ p : Post, matchesPattern (wrapPattern q) p = specSearchMatch q p := by
    intro p
    unfold matchesPattern specSearchMatch
    rw [ilike_wrapped_eq_containsCI q p.title hq]
    cases hd : p.description with
    | none => rfl
    | some d => simp [ilike_wrapped_eq_containsCI q d hq]
  constructor
  · intro p
    unfold searchPosts
    rw [mem_sortStable, List.mem_filter, hmp p]
    simp [Bool.and_eq_true]
  · exact sortStable_descLt_pairwise _

/-- Witness for C7 (amended) at the concrete store: the post `axb` is
found by the clean query `axb`. -/
theorem searchPosts_substring_spec_witness :
    cexPost ∈ searchPosts cexDB 9 (wrapPattern "axb") ↔
      cexPost ∈ cexDB.posts ∧ followsFeed cexDB 9 cexPost.feedId = true ∧
        specSearchMatch "axb" cexPost = true :=
  (searchPosts_substring_spec cexDB 9 "axb" (by decide)).1 cexPost

/-! ### C10 — the empty query returns every followed post -/

theorem likeMatch_double_pct (ts : List Char) : likeMatch ['%', '%'] ts = true := by
  have h : likeMatch ['%', '%'] ts =
      anySuffix (fun rest => likeMatchT [.pct] rest) ts := rfl
  rw [h]
  exact (anySuffix_iff _ _).mpr ⟨ts, List.suffix_refl _, likeMatchT_pct_single ts⟩

/-- C10: searching with the empty query is not an error; the wrapped
pattern `%%` matches every (non-null) title, so `handlerSearch` returns
every post of every feed the user follows, ordered by published time
falling back to creation time, descending; in particular the result is
non-empty whenever followed posts exist. -/
theorem search_empty_query_returns_all (db : DB) (uid : Nat) :
    handlerSearch db uid [""] =
      .ok (sortStable descLt (db.posts.filter (fun p => followsFeed db uid p.feedId))) ∧
    (∀ p, p ∈ searchPosts db uid (wrapPattern "") ↔
      p ∈ db.posts ∧ followsFeed db uid p.feedId = true) ∧
    (db.posts.filter (fun p => followsFeed db uid p.feedId) ≠ [] →
      searchPosts db uid (wrapPattern "") ≠ []) := by
  have hmp : ∀ p : Post, matchesPattern (wrapPattern "") p = true := by
    intro p
    unfold matchesPattern ilike
    rw [show lowerChars (wrapPattern "") = ['%', '%'] from rfl]
    simp [likeMatch_double_pct]
  have hfilter :
      db.posts.filter
          (fun p => followsFeed db uid p.feedId && matchesPattern (wrapPattern "") p) =
        db.posts.filter (fun p => followsFeed db uid p.feedId) :=
    List.filter_congr (fun p _ => by rw [hmp p, Bool.and_true])
  refine ⟨?_, ?_, ?_⟩
  · show Except.ok (searchPosts db uid (wrapPattern "")) = _
    unfold searchPosts
    rw [hfilter]
  · intro p
    unfold searchPosts
    rw [mem_sortStable, hfilter, List.mem_filter]
  · intro hne hcontra
    apply hne
    unfold searchPosts at hcontra
    rw [hfilter] at hcontra
    have hlen := length_sortStable descLt
      (db.posts.filter (fun p => followsFeed db uid p.feedId))
    rw [hcontra] at hlen
    exact List.eq_nil_of_length_eq_zero hlen.symm

/-- Witness for C10 at the concrete store: the empty query returns a
non-empty result for the user with a followed post. -/
theorem search_empty_query_returns_all_witness :
    searchPosts cexDB 9 (wrapPattern "") ≠ [] :=
  (search_empty_query_returns_all cexDB 9).2.2 (by decide)
